import Mathlib

/-!
Verification of the `turbo::scheduler` core (src/scheduler.cpp, scheduler.hpp)
and the coroutine `final_suspend` hop (src/coro.hpp) of r2rationality/turbo-common.

The scheduler is embedded as a sequential state machine: the priority queue
(`std::priority_queue<scheduled_task>`, a max-heap ordered by `operator<` on
`priority` alone) is modelled as a multiset of tasks (a `List`) together with a
`popMax` operation that removes one maximal-priority element, which is the
contract of `top()`/`pop()`; tie order is unspecified in the source and the
model simply fixes one admissible choice.  A task's C++ action
(`std::function<void()>`) is summarised by whether it throws (`fails`), the
exception message (`err_msg`) and the exception type name (`ex_type`); the
scheduler code never inspects the action beyond invoking it and catching.
Ghost fields (`task_id`, `exec_trace`, `obs_calls`, `task_stat.cancelled`)
record identity and history only; no modelled operation branches on them.
Machine counters (`size_t`) are modelled as `Nat`; every decrement performed
by the code is shown (via the queue/stats invariant) to happen only at
positive values in reachable states, so `size_t` wrap-around never occurs and
truncated `Nat` subtraction coincides with the source semantics there.
Wall-clock time, `cpu_time` accounting, logging and the progress sink are not
modelled: no verified claim mentions them.
-/

namespace TurboSched

/-- `turbo::scheduled_task` (scheduler.hpp).  `priority : int64_t`,
`task_group : std::string`, the action `task : std::function<void()>` is
summarised by the ghost fields `task_id` (identity of the wrapped action),
`fails`/`err_msg`/`ex_type` (its observable throw behaviour), and
`param : std::optional<std::any>` is an opaque optional token. -/
structure scheduled_task where
  priority : Int
  task_group : String
  task_id : Nat
  fails : Bool
  err_msg : String
  ex_type : String
  param : Option Nat
deriving DecidableEq, Repr

/-- `scheduler::impl::task_stat` (scheduler.cpp:251).  `cpu_time` (a wall-clock
double) is not modelled.  `cancelled` is a ghost field: the spec's "implicit
cancellation counter", incremented exactly when `cancel` drops a task of the
group; the C++ struct has no such member and no operation reads it. -/
structure task_stat where
  submitted : Nat
  queued : Nat
  completed : Nat
  cancelled : Nat
deriving DecidableEq, Repr

/-- One invocation of a per-group error observer, as performed at
scheduler.cpp:375-382: the observer receives a `scheduled_task_error` carrying
the failed task and the formatted message. -/
structure obs_event where
  task_id : Nat
  task_group : String
  message : String
deriving DecidableEq, Repr

/-- The exceptions thrown by the scheduler itself (not by user tasks). -/
inductive sched_error where
  | nested_process
  | tasks_failed
  | concurrent_wait_all
  | too_few_workers (n : Nat)
  | observer_after_submit (g : String)
  | duplicate_observer (g : String)
  | wait_all_failed (g : String)
deriving DecidableEq, Repr

/-- The state of `scheduler::impl` (scheduler.cpp:259-277).  `tasks` is the
multiset of queued tasks (`_tasks`), `task_stats` the per-group statistics map
(`_task_stats`, an association list keyed by group), `observers` the error
observer map (`_observers`, observers identified by ghost tokens), `success`,
`process_running` and `wait_all_done_running` the three atomic flags, and
`num_workers` the resolved worker count.  `exec_trace` (tasks in execution
order) and `obs_calls` (observer invocations) are ghost history fields. -/
structure sched_state where
  tasks : List scheduled_task
  task_stats : List (String × task_stat)
  observers : List (String × Nat)
  success : Bool
  process_running : Bool
  wait_all_done_running : Bool
  num_workers : Nat
  exec_trace : List scheduled_task
  obs_calls : List obs_event
deriving DecidableEq, Repr

/-- The state right after the constructor ran (scheduler.cpp:38-57). -/
def init_state (w : Nat) : sched_state :=
  { tasks := [], task_stats := [], observers := [], success := true,
    process_running := false, wait_all_done_running := false,
    num_workers := w, exec_trace := [], obs_calls := [] }

/-- Lookup in an association list; first match wins, like
`std::unordered_map::find` on the (duplicate-free) maps the scheduler keeps. -/
def lookupS {α : Type} : List (String × α) → String → Option α
  | [], _ => none
  | (k, v) :: rest, g => if k = g then some v else lookupS rest g

/-- `_task_stats.emplace(task.task_group, task_stat{1, 1})` followed by the
`++submitted; ++queued` on the pre-existing entry (scheduler.cpp:119-123). -/
def stat_submit : List (String × task_stat) → String → List (String × task_stat)
  | [], g => [(g, ⟨1, 1, 0, 0⟩)]
  | (k, st) :: rest, g =>
    if k = g then
      (k, { st with submitted := st.submitted + 1, queued := st.queued + 1 }) :: rest
    else (k, st) :: stat_submit rest g

/-- The post-execution bookkeeping `--it->second.queued; ++it->second.completed`
(scheduler.cpp:367-370); when the entry is missing the code only logs an
internal error (scheduler.cpp:372) and changes nothing. -/
def stat_complete : List (String × task_stat) → String → List (String × task_stat)
  | [], _ => []
  | (k, st) :: rest, g =>
    if k = g then
      (k, { st with queued := st.queued - 1, completed := st.completed + 1 }) :: rest
    else (k, st) :: stat_complete rest g

/-- `--_task_stats[task.task_group].queued` in `cancel` (scheduler.cpp:105),
plus the ghost `cancelled` increment.  The `[]` case mirrors `operator[]`
default-inserting a zero entry; there the `size_t` decrement would wrap in
C++, but that case is unreachable: in every reachable state a queued task's
group has a stats entry whose `queued` dominates the queue count. -/
def stat_cancel : List (String × task_stat) → String → List (String × task_stat)
  | [], g => [(g, ⟨0, 0, 0, 1⟩)]
  | (k, st) :: rest, g =>
    if k = g then
      (k, { st with queued := st.queued - 1, cancelled := st.cancelled + 1 }) :: rest
    else (k, st) :: stat_cancel rest g

def submitted_ofS (m : List (String × task_stat)) (g : String) : Nat :=
  match lookupS m g with
  | some st => st.submitted
  | none => 0

def queued_ofS (m : List (String × task_stat)) (g : String) : Nat :=
  match lookupS m g with
  | some st => st.queued
  | none => 0

def completed_ofS (m : List (String × task_stat)) (g : String) : Nat :=
  match lookupS m g with
  | some st => st.completed
  | none => 0

def cancelled_ofS (m : List (String × task_stat)) (g : String) : Nat :=
  match lookupS m g with
  | some st => st.cancelled
  | none => 0

def submitted_of (s : sched_state) (g : String) : Nat := submitted_ofS s.task_stats g
def queued_of (s : sched_state) (g : String) : Nat := queued_ofS s.task_stats g
def completed_of (s : sched_state) (g : String) : Nat := completed_ofS s.task_stats g
def cancelled_of (s : sched_state) (g : String) : Nat := cancelled_ofS s.task_stats g

/-- `scheduler::impl::task_count` (scheduler.cpp:142-151): the group's `queued`
counter, zero when the group has no stats entry. -/
def task_count (s : sched_state) (g : String) : Nat := queued_of s g

/-- Number of queued tasks of group `g`. -/
def count_group (g : String) (ts : List scheduled_task) : Nat :=
  (ts.filter (fun t => decide (t.task_group = g))).length

/-- The contract of `_tasks.top(); _tasks.pop()` on
`std::priority_queue<scheduled_task>` with `operator<` comparing `priority`
(scheduler.hpp): remove one maximal-priority element, ties in unspecified
order (the model keeps the earliest of equals). -/
def popMax : List scheduled_task → Option (scheduled_task × List scheduled_task)
  | [] => none
  | t :: ts =>
    match popMax ts with
    | none => some (t, [])
    | some (m, rest) =>
      if t.priority < m.priority then some (m, t :: rest) else some (t, ts)

/-- `scheduler::impl::post` (scheduler.cpp:116-127): bump `submitted`/`queued`
for the group and push the task.  (The `notify_one` wake-up has no sequential
content.) -/
def post (s : sched_state) (t : scheduled_task) : sched_state :=
  { s with task_stats := stat_submit s.task_stats t.task_group,
           tasks := s.tasks ++ [t] }

/-- `scheduler::submit` / repeated `post` over a submission list. -/
def submit_all (s : sched_state) (subs : List scheduled_task) : sched_state :=
  subs.foldl post s

/-- A single-quote character, used by the error-message format. -/
def sq : String := String.singleton (Char.ofNat 39)

/-- The message formatted at the worker catch site (scheduler.cpp:357). -/
def err_message (t : scheduled_task) : String :=
  "task: " ++ sq ++ t.task_group ++ sq ++ " error: " ++ sq ++ t.err_msg ++ sq
    ++ " of type: " ++ sq ++ t.ex_type ++ sq ++ "!"

/-- Whether `_observers.find(task_group)` succeeds (scheduler.cpp:377). -/
def has_observer (s : sched_state) (g : String) : Bool :=
  (lookupS s.observers g).isSome

/-- `scheduler::impl::_worker_try_execute` (scheduler.cpp:322-390), one
sequential round: if the queue is non-empty, pop the top task, run its action
(an exception sets `success := false` and builds a `scheduled_task_error`),
then decrement `queued`, increment `completed`, and on error invoke the
group's observer when one is registered (observer exceptions are swallowed).
The CV wait, the `__WAIT_FOR_TASKS__` cpu-time accounting, the per-worker
diagnostic slot and `_num_active` have no effect on the modelled state. -/
def worker_try_execute (s : sched_state) : sched_state :=
  match popMax s.tasks with
  | none => s
  | some (t, rest) =>
    { s with
      tasks := rest,
      success := if t.fails then false else s.success,
      task_stats := stat_complete s.task_stats t.task_group,
      exec_trace := s.exec_trace ++ [t],
      obs_calls :=
        if t.fails && has_observer s t.task_group then
          s.obs_calls ++ [⟨t.task_id, t.task_group, err_message t⟩]
        else s.obs_calls }

/-- The loop guard of `_process` (scheduler.cpp:416-421): the sum of the
`queued` counters over all stats entries.  (Between sequential iterations
`_num_active` is zero, so it is not part of the guard here.) -/
def total_queued (s : sched_state) : Nat :=
  (s.task_stats.map (fun p => p.2.queued)).sum

/-- The drain loop of `scheduler::impl::_process` (scheduler.cpp:412-427):
keep executing until no task is queued.  `fuel` bounds the number of
iterations; `none` means the loop has not terminated within `fuel` steps. -/
def drain : Nat → sched_state → Option sched_state
  | 0, _ => none
  | fuel + 1, s =>
    if total_queued s = 0 then some s else drain fuel (worker_try_execute s)

/-- The finalize lambda of `process_ok` (scheduler.cpp:159-166): clear all
observers, drop the reentrance flag, reset `success` for the next cycle. -/
def finalize (s : sched_state) : sched_state :=
  { s with observers := [], process_running := false, success := true }

/-- `scheduler::impl::process_ok` (scheduler.cpp:153-177): reject nested
calls, drain, read the accumulated `success` flag, finalize, return the flag
with the finalized state. -/
def process_ok (fuel : Nat) (s : sched_state) :
    Option (Except sched_error (Bool × sched_state)) :=
  if s.process_running then some (.error .nested_process)
  else
    match drain fuel { s with process_running := true } with
    | none => none
    | some s1 => some (.ok (s1.success, finalize s1))

/-- `scheduler::impl::process` (scheduler.cpp:179-183): `process_ok`, then
throw when some task failed. -/
def process (fuel : Nat) (s : sched_state) : Option (Except sched_error sched_state) :=
  match process_ok fuel s with
  | none => none
  | some (.error e) => some (.error e)
  | some (.ok (res, s1)) =>
    if res then some (.ok s1) else some (.error .tasks_failed)

/-- `scheduler::impl::_process_once` (scheduler.cpp:399-410).  The
`process_tasks` path runs one `_worker_try_execute` round when the calling
thread belongs to the pool (`caller_is_worker`) and only logs a warning
otherwise; `_process_results` is an ignored parameter in the source; the
trailing `_report_status` touches none of the modelled state. -/
def process_once_impl (s : sched_state) (_report_status process_tasks _process_results
    caller_is_worker : Bool) : sched_state :=
  if process_tasks then
    (if caller_is_worker then worker_try_execute s else s)
  else s

/-- `scheduler::impl::process_once` (scheduler.cpp:185-190): always
`_process_once(report_status, false, !_process_running)`. -/
def process_once (s : sched_state) (report_status caller_is_worker : Bool) : sched_state :=
  process_once_impl s report_status false (!s.process_running) caller_is_worker

/-- Replace the first binding of `g` (the `it->second = obs` branch of
`on_error`), appending when absent. -/
def obs_update : List (String × Nat) → String → Nat → List (String × Nat)
  | [], g, o => [(g, o)]
  | (k, v) :: rest, g, o =>
    if k = g then (k, o) :: rest else (k, v) :: obs_update rest g o

/-- `scheduler::impl::on_error` (scheduler.cpp:129-140): reject when the group
has work in flight; otherwise install the observer, and on a duplicate either
replace it (`replace`) or reject.  Observers are identified by ghost tokens. -/
def on_error (s : sched_state) (g : String) (obs : Nat) (replace : Bool) :
    Except sched_error sched_state :=
  if task_count s g ≠ 0 then .error (.observer_after_submit g)
  else
    match lookupS s.observers g with
    | none => .ok { s with observers := s.observers ++ [(g, obs)] }
    | some _ =>
      if replace then .ok { s with observers := obs_update s.observers g obs }
      else .error (.duplicate_observer g)

theorem popMax_none_iff (l : List scheduled_task) : popMax l = none ↔ l = [] := by
  cases l with
  | nil => simp [popMax]
  | cons t ts =>
    simp only [popMax]
    cases h : popMax ts with
    | none => simp
    | some p =>
      obtain ⟨m, rest⟩ := p
      by_cases hp : t.priority < m.priority <;> simp [hp]

theorem popMax_perm (l : List scheduled_task) (m : scheduled_task)
    (rest : List scheduled_task) (h : popMax l = some (m, rest)) :
    l.Perm (m :: rest) := by
  induction l generalizing m rest with
  | nil => simp [popMax] at h
  | cons t ts ih =>
    simp only [popMax] at h
    cases h2 : popMax ts with
    | none =>
      rw [h2] at h
      have hts : ts = [] := (popMax_none_iff ts).mp h2
      cases h
      subst hts
      exact List.Perm.refl _
    | some p =>
      obtain ⟨m2, rest2⟩ := p
      rw [h2] at h
      by_cases hp : t.priority < m2.priority
      · simp only [hp, if_true, Option.some.injEq, Prod.mk.injEq] at h
        obtain ⟨hm, hr⟩ := h
        subst hm
        subst hr
        exact (List.Perm.cons t (ih m2 rest2 h2)).trans (List.Perm.swap m2 t rest2)
      · simp only [hp, if_false, Option.some.injEq, Prod.mk.injEq] at h
        obtain ⟨hm, hr⟩ := h
        subst hm
        subst hr
        exact List.Perm.refl _

theorem popMax_length (l : List scheduled_task) (m : scheduled_task)
    (rest : List scheduled_task) (h : popMax l = some (m, rest)) :
    rest.length < l.length := by
  have := (popMax_perm l m rest h).length_eq
  simp only [List.length_cons] at this
  omega

/-- The body of `scheduler::impl::cancel` (scheduler.cpp:96-114): pop every
task off the heap; a task matching the predicate is dropped (its group's
`queued` decremented, the count bumped), a survivor is pushed onto the new
heap.  Arguments: remaining heap, survivors so far, stats, count so far. -/
def cancel_loop (pred : String → Option Nat → Bool) :
    List scheduled_task → List scheduled_task → List (String × task_stat) → Nat →
    List scheduled_task × List (String × task_stat) × Nat
  | heap, acc, stats, n =>
    match h : popMax heap with
    | none => (acc, stats, n)
    | some (t, rest) =>
      if pred t.task_group t.param then
        cancel_loop pred rest acc (stat_cancel stats t.task_group) (n + 1)
      else
        cancel_loop pred rest (acc ++ [t]) stats n
termination_by heap => heap.length
decreasing_by
  all_goals exact popMax_length _ _ _ h

/-- `scheduler::impl::cancel`: run the filter loop and install the rebuilt
heap; returns the number of cancelled tasks together with the new state. -/
def cancel (s : sched_state) (pred : String → Option Nat → Bool) :
    Nat × sched_state :=
  let r := cancel_loop pred s.tasks [] s.task_stats 0
  (r.2.2, { s with tasks := r.1, task_stats := r.2.1 })

/-- Ghost identity of the temporary observer `wait_all_done` installs. -/
def wait_all_obs_id : Nat := 1000000

/-- The spin loop of `wait_all_done` (scheduler.cpp:217-229) together with the
background workers that drain the queue meanwhile: each iteration in which
work remains executes one task (on some worker).  `todo` mirrors the shared
atomic the submitter wrapper increments per submission and the wrapper
decrements after a successful run (a throwing action skips the decrement,
scheduler.cpp:208-215); `errors` mirrors the atomic the temporary observer
bumps for every failed task of group `g` (scheduler.cpp:204-206).  The C++
guard `todo - errors == 0` on `size_t` is equality of the two counters.  When
the queue is empty but the counters are unbalanced the C++ loop spins forever;
the model returns `none` (as it does when `fuel` runs out). -/
def wait_all_loop (g : String) (wrapped : List Nat) :
    Nat → sched_state → Nat → Nat → Option (sched_state × Nat)
  | 0, _, _, _ => none
  | fuel + 1, s, todo, errors =>
    if todo = errors then some (s, errors)
    else
      match popMax s.tasks with
      | none => none
      | some (t, _) =>
        wait_all_loop g wrapped fuel (worker_try_execute s)
          (if t.task_id ∈ wrapped ∧ t.fails = false then todo - 1 else todo)
          (if t.fails = true ∧ t.task_group = g then errors + 1 else errors)

/-- `scheduler::impl::wait_all_done` (scheduler.cpp:192-242), with the user's
`submit_func` modelled as submitting the list `subs` through the provided
wrapper.  In order: the single-flight CAS (failure throws with the state
unchanged); the `num_workers < 4` check, whose throw happens before the `try`
block and therefore leaves the flag set; inside the `try`: install the
error-counting observer via `on_error(…, replace = true)` (a failure is caught,
clears the flag and rethrows), submit the wrapped tasks, spin the drain loop;
after the loop clear the flag and throw iff `errors > 0`.  The result carries
the final state, the thrown error if any, and the final `errors` counter. -/
def wait_all (fuel : Nat) (s : sched_state) (g : String)
    (subs : List scheduled_task) : Option (sched_state × Option sched_error × Nat) :=
  if s.wait_all_done_running then some (s, some .concurrent_wait_all, 0)
  else if s.num_workers < 4 then
    some ({ s with wait_all_done_running := true }, some (.too_few_workers s.num_workers), 0)
  else
    match on_error { s with wait_all_done_running := true } g wait_all_obs_id true with
    | .error e => some ({ s with wait_all_done_running := false }, some e, 0)
    | .ok s2 =>
      match wait_all_loop g (subs.map (fun t => t.task_id)) fuel
          (submit_all s2 subs) subs.length 0 with
      | none => none
      | some (s4, errors) =>
        if errors > 0 then
          some ({ s4 with wait_all_done_running := false }, some (.wait_all_failed g), errors)
        else some ({ s4 with wait_all_done_running := false }, none, errors)

/-! ## The coroutine layer (src/coro.hpp)

Coroutine frames are identified by `Nat` tokens; a null
`std::coroutine_handle<>` is `none`.  `coro_env` records which frames are
completed (`done`, the truth of `handle.done()`) and, as ghost history, every
`handle.resume()` call performed. -/

structure coro_env where
  done : List Nat
  resumed : List Nat
deriving DecidableEq, Repr

/-- The closure that `task_t<T>::promise_type::final_suspend` submits
(coro.hpp:151-156): `if (ch && !ch.done()) ch.resume();`. -/
def final_suspend_action (ch : Option Nat) (env : coro_env) : coro_env :=
  match ch with
  | none => env
  | some h => if env.done.contains h then env else { env with resumed := env.resumed ++ [h] }

/-- The `scheduled_task` built by `scheduler::submit("final-suspend", 100, …)`
from `final_suspend` (coro.hpp:151): priority 100, group "final-suspend", no
param; the closure never throws by itself (resuming is not a throwing
operation in the model), and the frame handle `mh` serves as ghost id. -/
def final_suspend_task (mh : Nat) : scheduled_task :=
  { priority := 100, task_group := "final-suspend", task_id := mh,
    fails := false, err_msg := "", ex_type := "", param := none }

/-- `task_t<T>::promise_type::final_suspend` (coro.hpp:146-158): submit exactly
one scheduler task (whose closure is `final_suspend_action ch`) and suspend;
the caller handle is not resumed inline, so the coroutine environment is
untouched. -/
def final_suspend (mh : Nat) (ch : Option Nat) (s : sched_state) (env : coro_env) :
    sched_state × coro_env :=
  (post s (final_suspend_task mh), env)

/-! ## Association-list and statistics lemmas -/

theorem lookupS_mem {α : Type} (m : List (String × α)) (g : String) (v : α)
    (h : lookupS m g = some v) : (g, v) ∈ m := by
  induction m with
  | nil => simp [lookupS] at h
  | cons p rest ih =>
    obtain ⟨k, w⟩ := p
    by_cases hk : k = g
    · subst hk
      simp [lookupS] at h
      simp [h]
    · simp only [lookupS, hk, if_false] at h
      exact List.mem_cons_of_mem _ (ih h)

theorem lookupS_stat_submit_self (m : List (String × task_stat)) (g : String) :
    lookupS (stat_submit m g) g =
      some (match lookupS m g with
            | some st => { st with submitted := st.submitted + 1, queued := st.queued + 1 }
            | none => ⟨1, 1, 0, 0⟩) := by
  induction m with
  | nil => simp [stat_submit, lookupS]
  | cons p rest ih =>
    obtain ⟨k, st⟩ := p
    by_cases hk : k = g
    · subst hk
      simp [stat_submit, lookupS]
    · simp [stat_submit, lookupS, hk, ih]

theorem lookupS_stat_submit_other (m : List (String × task_stat)) (g h' : String)
    (hne : h' ≠ g) : lookupS (stat_submit m g) h' = lookupS m h' := by
  induction m with
  | nil => simp [stat_submit, lookupS, Ne.symm hne]
  | cons p rest ih =>
    obtain ⟨k, st⟩ := p
    by_cases hk : k = g
    · subst hk
      simp [stat_submit, lookupS, Ne.symm hne]
    · by_cases hk2 : k = h'
      · subst hk2
        simp [stat_submit, lookupS, hk]
      · simp [stat_submit, lookupS, hk, hk2, ih]

theorem lookupS_stat_complete_self (m : List (String × task_stat)) (g : String) :
    lookupS (stat_complete m g) g =
      (lookupS m g).map
        (fun st => { st with queued := st.queued - 1, completed := st.completed + 1 }) := by
  induction m with
  | nil => simp [stat_complete, lookupS]
  | cons p rest ih =>
    obtain ⟨k, st⟩ := p
    by_cases hk : k = g
    · subst hk
      simp [stat_complete, lookupS]
    · simp [stat_complete, lookupS, hk, ih]

theorem lookupS_stat_complete_other (m : List (String × task_stat)) (g h' : String)
    (hne : h' ≠ g) : lookupS (stat_complete m g) h' = lookupS m h' := by
  induction m with
  | nil => simp [stat_complete, lookupS]
  | cons p rest ih =>
    obtain ⟨k, st⟩ := p
    by_cases hk : k = g
    · subst hk
      simp [stat_complete, lookupS, Ne.symm hne]
    · by_cases hk2 : k = h'
      · subst hk2
        simp [stat_complete, lookupS, hk]
      · simp [stat_complete, lookupS, hk, hk2, ih]

theorem lookupS_stat_cancel_self (m : List (String × task_stat)) (g : String) :
    lookupS (stat_cancel m g) g =
      some (match lookupS m g with
            | some st => { st with queued := st.queued - 1, cancelled := st.cancelled + 1 }
            | none => ⟨0, 0, 0, 1⟩) := by
  induction m with
  | nil => simp [stat_cancel, lookupS]
  | cons p rest ih =>
    obtain ⟨k, st⟩ := p
    by_cases hk : k = g
    · subst hk
      simp [stat_cancel, lookupS]
    · simp [stat_cancel, lookupS, hk, ih]

theorem lookupS_stat_cancel_other (m : List (String × task_stat)) (g h' : String)
    (hne : h' ≠ g) : lookupS (stat_cancel m g) h' = lookupS m h' := by
  induction m with
  | nil => simp [stat_cancel, lookupS, Ne.symm hne]
  | cons p rest ih =>
    obtain ⟨k, st⟩ := p
    by_cases hk : k = g
    · subst hk
      simp [stat_cancel, lookupS, Ne.symm hne]
    · by_cases hk2 : k = h'
      · subst hk2
        simp [stat_cancel, lookupS, hk]
      · simp [stat_cancel, lookupS, hk, hk2, ih]

/-! ## Queue/statistics invariant -/

/-- In every reachable state, a group's `queued` counter equals the number of
its tasks in the queue (sequentially, no task is mid-execution between
steps). -/
def AuxInv (s : sched_state) : Prop :=
  ∀ g, queued_of s g = count_group g s.tasks

theorem count_group_append (g : String) (ts us : List scheduled_task) :
    count_group g (ts ++ us) = count_group g ts + count_group g us := by
  simp [count_group, List.filter_append]

theorem count_group_singleton (g : String) (t : scheduled_task) :
    count_group g [t] = if t.task_group = g then 1 else 0 := by
  by_cases h : t.task_group = g <;> simp [count_group, h]

theorem count_group_perm (g : String) (ts us : List scheduled_task)
    (h : ts.Perm us) : count_group g ts = count_group g us :=
  (h.filter _).length_eq

theorem count_group_cons (g : String) (t : scheduled_task) (ts : List scheduled_task) :
    count_group g (t :: ts) = (if t.task_group = g then 1 else 0) + count_group g ts := by
  by_cases h : t.task_group = g <;> simp [count_group, h, List.filter_cons, Nat.add_comm]

theorem aux_init (w : Nat) : AuxInv (init_state w) := by
  intro g
  simp [init_state, queued_of, queued_ofS, lookupS, count_group]

theorem queued_of_post (s : sched_state) (t : scheduled_task) (g : String) :
    queued_of (post s t) g =
      queued_of s g + (if t.task_group = g then 1 else 0) := by
  by_cases h : t.task_group = g
  · subst h
    simp only [post, queued_of, queued_ofS, lookupS_stat_submit_self, if_true, if_pos rfl]
    cases hl : lookupS s.task_stats t.task_group <;> simp [hl]
  · simp only [post, queued_of, queued_ofS]
    rw [lookupS_stat_submit_other _ _ _ (fun hh => h hh.symm)]
    simp [h]

theorem aux_post (s : sched_state) (t : scheduled_task) (h : AuxInv s) :
    AuxInv (post s t) := by
  intro g
  have htasks : (post s t).tasks = s.tasks ++ [t] := rfl
  rw [queued_of_post, htasks, count_group_append, count_group_singleton, h g]

theorem aux_submit_all (s : sched_state) (subs : List scheduled_task)
    (h : AuxInv s) : AuxInv (submit_all s subs) := by
  induction subs generalizing s with
  | nil => exact h
  | cons t rest ih => exact ih (post s t) (aux_post s t h)

/-- A group with a task in the queue has a live stats entry whose `queued`
counter is positive: `size_t` decrements in the source never underflow. -/
theorem queued_pos_of_mem (s : sched_state) (t : scheduled_task)
    (hA : AuxInv s) (hm : t ∈ s.tasks) : 1 ≤ queued_of s t.task_group := by
  rw [hA t.task_group]
  have : t ∈ s.tasks.filter (fun u => decide (u.task_group = t.task_group)) :=
    List.mem_filter.mpr ⟨hm, by simp⟩
  have := List.length_pos_of_mem this
  simpa [count_group] using this

theorem aux_worker_try_execute (s : sched_state) (hA : AuxInv s) :
    AuxInv (worker_try_execute s) := by
  cases hpop : popMax s.tasks with
  | none =>
    simp [worker_try_execute, hpop, hA]
  | some p =>
    obtain ⟨t, rest⟩ := p
    have hperm := popMax_perm _ _ _ hpop
    have hmem : t ∈ s.tasks := hperm.mem_iff.mpr (List.mem_cons_self t rest)
    have hq := queued_pos_of_mem s t hA hmem
    intro g
    have htasks : (worker_try_execute s).tasks = rest := by
      simp [worker_try_execute, hpop]
    have hstats : (worker_try_execute s).task_stats = stat_complete s.task_stats t.task_group := by
      simp [worker_try_execute, hpop]
    have hcount : count_group g s.tasks =
        (if t.task_group = g then 1 else 0) + count_group g rest := by
      rw [count_group_perm g _ _ hperm, count_group_cons]
    by_cases hg : t.task_group = g
    · subst hg
      have hself : queued_of (worker_try_execute s) t.task_group =
          queued_of s t.task_group - 1 := by
        simp only [queued_of, queued_ofS, hstats, lookupS_stat_complete_self]
        cases hl : lookupS s.task_stats t.task_group <;> simp [hl]
      rw [hself, htasks, hA t.task_group, hcount]
      simp
    · have hother : queued_of (worker_try_execute s) g = queued_of s g := by
        simp only [queued_of, queued_ofS, hstats]
        rw [lookupS_stat_complete_other _ _ _ (fun hh => hg hh.symm)]
      rw [hother, htasks, hA g, hcount]
      simp [hg]

/-- If the stats say nothing is queued, the queue is empty (in states
satisfying the invariant). -/
theorem tasks_eq_nil_of_total_queued (s : sched_state) (hA : AuxInv s)
    (h0 : total_queued s = 0) : s.tasks = [] := by
  cases htasks : s.tasks with
  | nil => rfl
  | cons t ts =>
    exfalso
    have hmem : t ∈ s.tasks := by rw [htasks]; exact List.mem_cons_self t ts
    have hq := queued_pos_of_mem s t hA hmem
    obtain ⟨st, hst, hstq⟩ : ∃ st, lookupS s.task_stats t.task_group = some st ∧ 1 ≤ st.queued := by
      revert hq
      unfold queued_of queued_ofS
      cases hl : lookupS s.task_stats t.task_group with
      | none => intro hq; exact absurd hq (by simp)
      | some st => intro hq; exact ⟨st, rfl, hq⟩
    have hmem2 : (t.task_group, st) ∈ s.task_stats := lookupS_mem _ _ _ hst
    have hsum : st.queued ∈ s.task_stats.map (fun p => p.2.queued) :=
      List.mem_map.mpr ⟨(t.task_group, st), hmem2, rfl⟩
    have := List.single_le_sum (fun x _ => Nat.zero_le x) _ hsum
    rw [show (s.task_stats.map (fun p => p.2.queued)).sum = total_queued s from rfl, h0] at this
    omega

/-! ## Drain specification -/

/-- The observer event built at the worker catch site for a failed task. -/
def mk_event (t : scheduled_task) : obs_event :=
  ⟨t.task_id, t.task_group, err_message t⟩

/-- Observer invocations recorded for the action with ghost id `id`. -/
def obs_for (id : Nat) (l : List obs_event) : List obs_event :=
  l.filter (fun e => decide (e.task_id = id))

/-- A queued task that will produce an observer call for id `id` when executed
while the observer map is `obs`. -/
def err_cond (obs : List (String × Nat)) (id : Nat) (t : scheduled_task) : Bool :=
  decide (t.task_id = id) && (t.fails && (lookupS obs t.task_group).isSome)

theorem all_perm (p : scheduled_task → Bool) {l l' : List scheduled_task}
    (h : l.Perm l') : l.all p = l'.all p := by
  induction h with
  | nil => rfl
  | cons x _ ih => simp [ih]
  | swap x y l => simp [Bool.and_left_comm]
  | trans _ _ ih1 ih2 => exact ih1.trans ih2

theorem obs_for_append (id : Nat) (l l' : List obs_event) :
    obs_for id (l ++ l') = obs_for id l ++ obs_for id l' := by
  simp [obs_for, List.filter_append]

/-- Everything the drain loop guarantees, in one statement: the queue is fully
drained, the execution trace is extended by exactly the queued tasks (as a
multiset), observers and flags are untouched, the `success` flag survives iff
it was set and no queued task fails, and per action id the observer calls grow
by exactly the failing queued tasks of observed groups. -/
theorem drain_spec (fuel : Nat) :
    ∀ (s s1 : sched_state), AuxInv s → drain fuel s = some s1 →
    AuxInv s1 ∧ s1.tasks = [] ∧ s1.exec_trace.Perm (s.exec_trace ++ s.tasks) ∧
    s1.observers = s.observers ∧ s1.process_running = s.process_running ∧
    s1.num_workers = s.num_workers ∧
    s1.success = (s.success && s.tasks.all (fun t => !t.fails)) ∧
    ∀ id, (obs_for id s1.obs_calls).Perm
        (obs_for id s.obs_calls ++ (s.tasks.filter (err_cond s.observers id)).map mk_event) := by
  induction fuel with
  | zero => intro s s1 _ h; simp [drain] at h
  | succ fuel ih =>
    intro s s1 hA h
    rw [drain] at h
    by_cases h0 : total_queued s = 0
    · rw [if_pos h0, Option.some.injEq] at h
      subst h
      have hnil := tasks_eq_nil_of_total_queued s hA h0
      refine ⟨hA, hnil, ?_, rfl, rfl, rfl, ?_, ?_⟩
      · rw [hnil]
        simp
      · rw [hnil]
        simp
      · intro id
        rw [hnil]
        simp
    · rw [if_neg h0] at h
      have hA' := aux_worker_try_execute s hA
      obtain ⟨iA, inil, iexec, iobs, iproc, iw, isucc, iobsc⟩ :=
        ih (worker_try_execute s) s1 hA' h
      cases hpop : popMax s.tasks with
      | none =>
        have hid : worker_try_execute s = s := by
          simp [worker_try_execute, hpop]
        rw [hid] at iexec iobs iproc iw isucc iobsc
        exact ⟨iA, inil, iexec, iobs, iproc, iw, isucc, iobsc⟩
      | some p =>
        obtain ⟨t, rest⟩ := p
        have hperm := popMax_perm _ _ _ hpop
        have e_tasks : (worker_try_execute s).tasks = rest := by
          simp [worker_try_execute, hpop]
        have e_obsv : (worker_try_execute s).observers = s.observers := by
          simp [worker_try_execute, hpop]
        have e_proc : (worker_try_execute s).process_running = s.process_running := by
          simp [worker_try_execute, hpop]
        have e_w : (worker_try_execute s).num_workers = s.num_workers := by
          simp [worker_try_execute, hpop]
        have e_succ : (worker_try_execute s).success =
            (if t.fails then false else s.success) := by
          simp [worker_try_execute, hpop]
        have e_exec : (worker_try_execute s).exec_trace = s.exec_trace ++ [t] := by
          simp [worker_try_execute, hpop]
        have e_obsc : (worker_try_execute s).obs_calls =
            (if (t.fails && has_observer s t.task_group) = true then
               s.obs_calls ++ [mk_event t] else s.obs_calls) := by
          simp only [worker_try_execute, hpop, mk_event]
        rw [e_exec, e_tasks] at iexec
        rw [e_obsv] at iobs
        rw [e_proc] at iproc
        rw [e_w] at iw
        rw [e_succ, e_tasks] at isucc
        simp only [e_obsc, e_obsv, e_tasks] at iobsc
        refine ⟨iA, inil, ?_, iobs, iproc, iw, ?_, ?_⟩
        · have h1 : s1.exec_trace.Perm ((s.exec_trace ++ [t]) ++ rest) := iexec
          have h2 : (s.exec_trace ++ [t]) ++ rest = s.exec_trace ++ (t :: rest) := by
            simp
          rw [h2] at h1
          exact h1.trans (List.Perm.append_left _ hperm.symm)
        · have hall : s.tasks.all (fun u => !u.fails) = (t :: rest).all (fun u => !u.fails) :=
            all_perm _ hperm
          rw [hall, List.all_cons]
          cases ht : t.fails
          · simpa [ht] using isucc
          · simpa [ht] using isucc
        · intro id
          have hi := iobsc id
          have hfil : (s.tasks.filter (err_cond s.observers id)).Perm
              ((t :: rest).filter (err_cond s.observers id)) := hperm.filter _
          by_cases hc : (t.fails && has_observer s t.task_group) = true
          · rw [if_pos hc] at hi
            rw [obs_for_append] at hi
            have hcnd : err_cond s.observers id t = decide (t.task_id = id) := by
              simp only [err_cond, has_observer] at hc ⊢
              rw [Bool.and_eq_true] at hc
              rw [hc.1, hc.2]
              simp
            by_cases hid2 : t.task_id = id
            · have hsing : obs_for id [mk_event t] = [mk_event t] := by
                simp [obs_for, mk_event, hid2]
              rw [hsing] at hi
              have htgt : ((t :: rest).filter (err_cond s.observers id)).map mk_event =
                  mk_event t :: (rest.filter (err_cond s.observers id)).map mk_event := by
                rw [List.filter_cons, hcnd]
                simp [hid2]
              refine hi.trans ?_
              refine List.Perm.trans ?_ (List.Perm.append_left _ ((hfil.map mk_event).symm))
              rw [htgt]
              simp
            · have hsing : obs_for id [mk_event t] = [] := by
                simp [obs_for, mk_event, hid2]
              rw [hsing, List.append_nil] at hi
              have htgt : ((t :: rest).filter (err_cond s.observers id)).map mk_event =
                  (rest.filter (err_cond s.observers id)).map mk_event := by
                rw [List.filter_cons, hcnd]
                simp [hid2]
              refine hi.trans ?_
              refine List.Perm.trans ?_ (List.Perm.append_left _ ((hfil.map mk_event).symm))
              rw [htgt]
          · rw [if_neg hc] at hi
            have hcnd : err_cond s.observers id t = false := by
              simp only [err_cond, has_observer] at hc ⊢
              rw [Bool.and_eq_true] at hc
              cases hf : t.fails
              · simp [hf]
              · cases hob : (lookupS s.observers t.task_group).isSome
                · simp [hf, hob]
                · exact absurd ⟨hf, hob⟩ hc
            have htgt : ((t :: rest).filter (err_cond s.observers id)).map mk_event =
                (rest.filter (err_cond s.observers id)).map mk_event := by
              rw [List.filter_cons, hcnd]
              simp
            refine hi.trans ?_
            refine List.Perm.trans ?_ (List.Perm.append_left _ ((hfil.map mk_event).symm))
            rw [htgt]

/-! ## Submission lemmas and `process_ok` inversion -/

theorem submit_all_fields (subs : List scheduled_task) : ∀ s : sched_state,
    (submit_all s subs).tasks = s.tasks ++ subs ∧
    (submit_all s subs).observers = s.observers ∧
    (submit_all s subs).exec_trace = s.exec_trace ∧
    (submit_all s subs).obs_calls = s.obs_calls ∧
    (submit_all s subs).success = s.success ∧
    (submit_all s subs).process_running = s.process_running ∧
    (submit_all s subs).num_workers = s.num_workers ∧
    (submit_all s subs).wait_all_done_running = s.wait_all_done_running := by
  induction subs with
  | nil => intro s; simp [submit_all]
  | cons t rest ih =>
    intro s
    have h1 := ih (post s t)
    have hstep : submit_all s (t :: rest) = submit_all (post s t) rest := rfl
    rw [hstep]
    refine ⟨?_, h1.2.1, h1.2.2.1, h1.2.2.2.1, h1.2.2.2.2.1, h1.2.2.2.2.2.1,
      h1.2.2.2.2.2.2.1, h1.2.2.2.2.2.2.2⟩
    rw [h1.1]
    show (s.tasks ++ [t]) ++ rest = s.tasks ++ t :: rest
    simp

theorem process_ok_inv (fuel : Nat) (s s1 : sched_state) (b : Bool)
    (hpr : s.process_running = false)
    (h : process_ok fuel s = some (.ok (b, s1))) :
    ∃ sd, drain fuel { s with process_running := true } = some sd ∧
      b = sd.success ∧ s1 = finalize sd := by
  unfold process_ok at h
  rw [if_neg (by rw [hpr]; exact Bool.false_ne_true)] at h
  cases hd : drain fuel { s with process_running := true } with
  | none => rw [hd] at h; cases h
  | some sd =>
    rw [hd] at h
    simp only [Option.some.injEq, Except.ok.injEq, Prod.mk.injEq] at h
    exact ⟨sd, rfl, h.1.symm, h.2.symm⟩

/-! ## Claim C1 -/

/-- Claim C1: for every finite sequence of `submit` calls followed by one
`process()` call that returns, each submitted action is executed exactly once:
no action is skipped and no action runs more than once.  (`process` drains via
`process_ok`, modelled here; a `process()` that returns is a `process_ok` run
returning `some`.)  The execution trace after the drain is a permutation of
the submissions, and when the ghost action ids are distinct, each submitted
action occurs exactly once in it. -/
theorem submitted_actions_execute_exactly_once
    (w fuel : Nat) (subs : List scheduled_task) (b : Bool) (s1 : sched_state)
    (hids : (subs.map (fun t => t.task_id)).Nodup)
    (hrun : process_ok fuel (submit_all (init_state w) subs) = some (.ok (b, s1))) :
    s1.exec_trace.Perm subs ∧
    ∀ t ∈ subs, (s1.exec_trace.map (fun u => u.task_id)).count t.task_id = 1 := by
  have hfields := submit_all_fields subs (init_state w)
  have hpr : (submit_all (init_state w) subs).process_running = false := by
    rw [hfields.2.2.2.2.2.1]
    rfl
  obtain ⟨sd, hd, hb, hs1⟩ := process_ok_inv fuel _ s1 b hpr hrun
  have hA : AuxInv { submit_all (init_state w) subs with process_running := true } := by
    intro g
    exact aux_submit_all (init_state w) subs (aux_init w) g
  obtain ⟨_, _, hexec, _, _, _, _, _⟩ := drain_spec fuel _ sd hA hd
  have hexec2 : sd.exec_trace.Perm subs := by
    have h1 : ({ submit_all (init_state w) subs with
        process_running := true } : sched_state).exec_trace = [] := by
      show (submit_all (init_state w) subs).exec_trace = []
      rw [hfields.2.2.1]
      rfl
    have h2 : ({ submit_all (init_state w) subs with
        process_running := true } : sched_state).tasks = subs := by
      show (submit_all (init_state w) subs).tasks = subs
      rw [hfields.1]
      rfl
    rw [h1, h2] at hexec
    simpa using hexec
  have hexec3 : s1.exec_trace = sd.exec_trace := by
    rw [hs1]
    rfl
  constructor
  · rw [hexec3]
    exact hexec2
  · intro t ht
    rw [hexec3, (hexec2.map (fun u => u.task_id)).count_eq t.task_id]
    exact List.count_eq_one_of_mem hids (List.mem_map.mpr ⟨t, ht, rfl⟩)

/-- A concrete two-task submission batch used as witness input. -/
def c1_subs : List scheduled_task :=
  [⟨1, "A", 0, false, "", "", none⟩, ⟨5, "B", 1, false, "", "", none⟩]

/-- The state `process_ok` reaches on the witness input: both tasks executed
(highest priority first), counters settled, observers cleared. -/
def c1_out : sched_state :=
  { tasks := [],
    task_stats := [("A", ⟨1, 0, 1, 0⟩), ("B", ⟨1, 0, 1, 0⟩)],
    observers := [], success := true, process_running := false,
    wait_all_done_running := false, num_workers := 4,
    exec_trace := [⟨5, "B", 1, false, "", "", none⟩, ⟨1, "A", 0, false, "", "", none⟩],
    obs_calls := [] }

theorem submitted_actions_execute_exactly_once_witness :
    ((c1_subs.map (fun t => t.task_id)).Nodup ∧
     process_ok 3 (submit_all (init_state 4) c1_subs) = some (.ok (true, c1_out))) ∧
    (c1_out.exec_trace.Perm c1_subs ∧
     ∀ t ∈ c1_subs, (c1_out.exec_trace.map (fun u => u.task_id)).count t.task_id = 1) :=
  ⟨⟨by decide, by rfl⟩,
   submitted_actions_execute_exactly_once 4 3 c1_subs true c1_out (by decide) (by rfl)⟩

/-! ## Claim C3 -/

theorem popMax_le (l : List scheduled_task) (m : scheduled_task)
    (rest : List scheduled_task) (h : popMax l = some (m, rest)) :
    ∀ u ∈ rest, u.priority ≤ m.priority := by
  induction l generalizing m rest with
  | nil => simp [popMax] at h
  | cons t ts ih =>
    simp only [popMax] at h
    cases h2 : popMax ts with
    | none =>
      rw [h2] at h
      simp only [Option.some.injEq, Prod.mk.injEq] at h
      obtain ⟨hm, hr⟩ := h
      subst hm
      subst hr
      intro u hu
      simp at hu
    | some p =>
      obtain ⟨m2, rest2⟩ := p
      rw [h2] at h
      by_cases hp : t.priority < m2.priority
      · simp only [hp, if_true, Option.some.injEq, Prod.mk.injEq] at h
        obtain ⟨hm, hr⟩ := h
        subst hm
        subst hr
        intro u hu
        rcases List.mem_cons.mp hu with hu | hu
        · subst hu
          exact le_of_lt hp
        · exact ih m2 rest2 h2 u hu
      · simp only [hp, if_false, Option.some.injEq, Prod.mk.injEq] at h
        obtain ⟨hm, hr⟩ := h
        intro u hu
        rw [← hr] at hu
        rw [← hm]
        have hmem : u ∈ m2 :: rest2 := (popMax_perm ts m2 rest2 h2).mem_iff.mp hu
        have hm2 : m2.priority ≤ t.priority := le_of_not_lt hp
        rcases List.mem_cons.mp hmem with hu2 | hu2
        · subst hu2
          exact hm2
        · exact le_trans (ih m2 rest2 h2 u hu2) hm2

/-- Claim C3: whenever a worker removes a task from a non-empty queue (the
`_tasks.top(); _tasks.pop()` step of `_worker_try_execute`), the removed
task's priority is greater than or equal to the priority of every task that
remains in the queue at that moment (the tie order is an unconstrained choice
of the model). -/
theorem popped_task_has_max_priority (s : sched_state) (t : scheduled_task)
    (rest : List scheduled_task) (h : popMax s.tasks = some (t, rest)) :
    (worker_try_execute s).tasks = rest ∧
    (worker_try_execute s).exec_trace = s.exec_trace ++ [t] ∧
    ∀ u ∈ rest, u.priority ≤ t.priority :=
  ⟨by simp [worker_try_execute, h], by simp [worker_try_execute, h], popMax_le _ _ _ h⟩

theorem popped_task_has_max_priority_witness :
    popMax (submit_all (init_state 1) [⟨1, "A", 0, false, "", "", none⟩,
        ⟨9, "B", 1, false, "", "", none⟩]).tasks =
      some (⟨9, "B", 1, false, "", "", none⟩, [⟨1, "A", 0, false, "", "", none⟩]) ∧
    ((worker_try_execute (submit_all (init_state 1) [⟨1, "A", 0, false, "", "", none⟩,
        ⟨9, "B", 1, false, "", "", none⟩])).tasks = [⟨1, "A", 0, false, "", "", none⟩] ∧
     (worker_try_execute (submit_all (init_state 1) [⟨1, "A", 0, false, "", "", none⟩,
        ⟨9, "B", 1, false, "", "", none⟩])).exec_trace =
       (submit_all (init_state 1) [⟨1, "A", 0, false, "", "", none⟩,
        ⟨9, "B", 1, false, "", "", none⟩]).exec_trace ++ [⟨9, "B", 1, false, "", "", none⟩] ∧
     ∀ u ∈ [(⟨1, "A", 0, false, "", "", none⟩ : scheduled_task)],
       u.priority ≤ (⟨9, "B", 1, false, "", "", none⟩ : scheduled_task).priority) :=
  ⟨by rfl, popped_task_has_max_priority _ _ _ (by rfl)⟩

/-! ## Claim C10 -/

/-- Claim C10: the public `process_once(report_status)` never pops or executes
a queued task, for any pool and any caller: it always invokes the internal
`_process_once` with `process_tasks = false`, so the queue, the statistics
(submitted/queued/completed) and the execution trace are all unchanged; only
the rate-limited status report (unmodelled) happens. -/
theorem process_once_executes_nothing (s : sched_state)
    (report caller_is_worker : Bool) :
    process_once s report caller_is_worker = s ∧
    (process_once s report caller_is_worker).tasks = s.tasks ∧
    (process_once s report caller_is_worker).task_stats = s.task_stats ∧
    (process_once s report caller_is_worker).exec_trace = s.exec_trace :=
  ⟨rfl, rfl, rfl, rfl⟩

/-! ## Claim C8 -/

/-- Claim C8: a completing `task_t<T>` frame does not resume its stored caller
handle inline: `final_suspend` submits exactly one scheduler task, with
priority 100 and group "final-suspend", leaving the coroutine environment
untouched; and the submitted closure (`final_suspend_action ch`) resumes the
caller handle if and only if the handle is non-null and the caller frame is
not already done. -/
theorem final_suspend_schedules_resume (mh : Nat) (ch : Option Nat)
    (s : sched_state) (env : coro_env) :
    (final_suspend mh ch s env).1.tasks = s.tasks ++ [final_suspend_task mh] ∧
    (final_suspend_task mh).priority = 100 ∧
    (final_suspend_task mh).task_group = "final-suspend" ∧
    (final_suspend mh ch s env).2 = env ∧
    (final_suspend mh ch s env).1.exec_trace = s.exec_trace ∧
    (ch = none → final_suspend_action ch env = env) ∧
    (∀ h, ch = some h → env.done.contains h = true → final_suspend_action ch env = env) ∧
    (∀ h, ch = some h → env.done.contains h = false →
      final_suspend_action ch env = { env with resumed := env.resumed ++ [h] }) := by
  refine ⟨rfl, rfl, rfl, rfl, rfl, ?_, ?_, ?_⟩
  · intro hn
    subst hn
    rfl
  · intro h hs hd
    subst hs
    simp only [final_suspend_action]
    rw [if_pos hd]
  · intro h hs hd
    subst hs
    simp only [final_suspend_action]
    rw [if_neg (by simpa using hd)]

theorem final_suspend_schedules_resume_witness :
    ((some 3 : Option Nat) = some 3 ∧ (⟨[], []⟩ : coro_env).done.contains 3 = false) ∧
    final_suspend_action (some 3) ⟨[], []⟩ = ⟨[], [] ++ [3]⟩ :=
  ⟨⟨rfl, by decide⟩,
   (final_suspend_schedules_resume 7 (some 3) (init_state 4) ⟨[], []⟩).2.2.2.2.2.2.2 3 rfl
     (by decide)⟩

/-! ## Claim C4 (corrected)

The claim says an `on_error(G, observer)` call made while `task_count(G) == 0`
always succeeds.  It does not: with the default `replace = false`, a second
registration for the same group fails with "on_error observer has already been
set" (scheduler.cpp:135-137) even though `task_count(G) == 0`. -/

/-- Counterexample to claim C4 as stated: starting from a fresh scheduler, a
first `on_error("A", …)` succeeds; with `task_count "A" = 0` still holding, a
second `on_error("A", …)` (default `replace = false`) fails. -/
theorem on_error_zero_count_can_fail :
    on_error (init_state 4) "A" 0 false =
      .ok { init_state 4 with observers := [("A", 0)] } ∧
    task_count { init_state 4 with observers := [("A", 0)] } "A" = 0 ∧
    on_error { init_state 4 with observers := [("A", 0)] } "A" 1 false =
      .error (.duplicate_observer "A") := by
  refine ⟨by rfl, by rfl, by rfl⟩

/-- Claim C4 as amended: an `on_error(G, observer)` call made while
`task_count(G) > 0` always fails; a call made while `task_count(G) == 0`
succeeds when no observer is yet installed for G, succeeds (replacing) when
one is installed and the `replace` flag is set, and fails when one is
installed and `replace` is not set. -/
theorem on_error_contract (s : sched_state) (g : String) (obs : Nat) (replace : Bool) :
    (task_count s g ≠ 0 → on_error s g obs replace = .error (.observer_after_submit g)) ∧
    (task_count s g = 0 → lookupS s.observers g = none →
      on_error s g obs replace = .ok { s with observers := s.observers ++ [(g, obs)] }) ∧
    (task_count s g = 0 → ∀ o0, lookupS s.observers g = some o0 → replace = true →
      on_error s g obs replace = .ok { s with observers := obs_update s.observers g obs }) ∧
    (task_count s g = 0 → ∀ o0, lookupS s.observers g = some o0 → replace = false →
      on_error s g obs replace = .error (.duplicate_observer g)) := by
  refine ⟨?_, ?_, ?_, ?_⟩
  · intro hne
    simp [on_error, hne]
  · intro h0 hl
    simp [on_error, h0, hl]
  · intro h0 o0 hl hr
    subst hr
    simp [on_error, h0, hl]
  · intro h0 o0 hl hr
    subst hr
    simp [on_error, h0, hl]

theorem on_error_contract_witness :
    (task_count { init_state 4 with observers := [("A", 5)] } "A" = 0 ∧
     lookupS ({ init_state 4 with observers := [("A", 5)] } : sched_state).observers "A" =
       some 5 ∧ (false : Bool) = false) ∧
    on_error { init_state 4 with observers := [("A", 5)] } "A" 7 false =
      .error (.duplicate_observer "A") :=
  ⟨⟨by rfl, by rfl, rfl⟩,
   (on_error_contract { init_state 4 with observers := [("A", 5)] } "A" 7 false).2.2.2
     (by rfl) 5 (by rfl) rfl⟩

/-! ## Claim C2: counter balance invariant -/

/-- The spec's balance equation, per statistics map: for every group,
`submitted = queued + completed + cancelled`. -/
def stats_balance (m : List (String × task_stat)) : Prop :=
  ∀ g, submitted_ofS m g = queued_ofS m g + completed_ofS m g + cancelled_ofS m g

theorem balance_stat_submit (m : List (String × task_stat)) (g0 : String)
    (hb : stats_balance m) : stats_balance (stat_submit m g0) := by
  intro g
  by_cases hg : g = g0
  · subst hg
    have hb0 := hb g
    simp only [submitted_ofS, queued_ofS, completed_ofS, cancelled_ofS,
      lookupS_stat_submit_self] at hb0 ⊢
    cases hl : lookupS m g with
    | none => simp [hl]
    | some st =>
      rw [hl] at hb0
      simp only [hl]
      simp at hb0 ⊢
      omega
  · have hl := lookupS_stat_submit_other m g0 g hg
    simp only [submitted_ofS, queued_ofS, completed_ofS, cancelled_ofS, hl]
    exact hb g

theorem balance_stat_complete (m : List (String × task_stat)) (g0 : String)
    (hq : 1 ≤ queued_ofS m g0) (hb : stats_balance m) :
    stats_balance (stat_complete m g0) := by
  intro g
  by_cases hg : g = g0
  · subst hg
    have hb0 := hb g
    simp only [submitted_ofS, queued_ofS, completed_ofS, cancelled_ofS,
      lookupS_stat_complete_self] at hb0 hq ⊢
    cases hl : lookupS m g with
    | none => simp [hl]
    | some st =>
      simp [hl] at hb0 hq ⊢
      omega
  · have hl := lookupS_stat_complete_other m g0 g hg
    simp only [submitted_ofS, queued_ofS, completed_ofS, cancelled_ofS, hl]
    exact hb g

theorem balance_stat_cancel (m : List (String × task_stat)) (g0 : String)
    (hq : 1 ≤ queued_ofS m g0) (hb : stats_balance m) :
    stats_balance (stat_cancel m g0) := by
  intro g
  by_cases hg : g = g0
  · subst hg
    have hb0 := hb g
    simp only [submitted_ofS, queued_ofS, completed_ofS, cancelled_ofS,
      lookupS_stat_cancel_self] at hb0 hq ⊢
    cases hl : lookupS m g with
    | none => rw [hl] at hq; simp at hq
    | some st =>
      rw [hl] at hb0 hq
      simp only [hl]
      simp at hb0 hq ⊢
      omega
  · have hl := lookupS_stat_cancel_other m g0 g hg
    simp only [submitted_ofS, queued_ofS, completed_ofS, cancelled_ofS, hl]
    exact hb g

theorem queued_stat_cancel_self (m : List (String × task_stat)) (g : String) :
    queued_ofS (stat_cancel m g) g = queued_ofS m g - 1 := by
  simp only [queued_ofS, lookupS_stat_cancel_self]
  cases hl : lookupS m g <;> simp [hl]

theorem queued_stat_cancel_other (m : List (String × task_stat)) (g h' : String)
    (hne : h' ≠ g) : queued_ofS (stat_cancel m g) h' = queued_ofS m h' := by
  simp only [queued_ofS, lookupS_stat_cancel_other m g h' hne]

theorem balance_wte (s : sched_state) (hA : AuxInv s)
    (hb : stats_balance s.task_stats) :
    stats_balance (worker_try_execute s).task_stats := by
  cases hpop : popMax s.tasks with
  | none => simpa [worker_try_execute, hpop] using hb
  | some p =>
    obtain ⟨t, rest⟩ := p
    have hperm := popMax_perm _ _ _ hpop
    have hmem : t ∈ s.tasks := hperm.mem_iff.mpr (List.mem_cons_self t rest)
    have hq := queued_pos_of_mem s t hA hmem
    have hstats : (worker_try_execute s).task_stats =
        stat_complete s.task_stats t.task_group := by
      simp [worker_try_execute, hpop]
    rw [hstats]
    exact balance_stat_complete s.task_stats t.task_group hq hb

theorem balance_post (s : sched_state) (t : scheduled_task)
    (hb : stats_balance s.task_stats) : stats_balance (post s t).task_stats :=
  balance_stat_submit s.task_stats t.task_group hb

theorem cancel_loop_nil (pred : String → Option Nat → Bool)
    (acc : List scheduled_task) (stats : List (String × task_stat)) (n : Nat) :
    cancel_loop pred [] acc stats n = (acc, stats, n) := by
  rw [cancel_loop]
  simp [popMax]

theorem cancel_loop_step (pred : String → Option Nat → Bool)
    (heap acc : List scheduled_task) (stats : List (String × task_stat)) (n : Nat)
    (t : scheduled_task) (rest : List scheduled_task)
    (hpop : popMax heap = some (t, rest)) :
    cancel_loop pred heap acc stats n =
      (if pred t.task_group t.param then
        cancel_loop pred rest acc (stat_cancel stats t.task_group) (n + 1)
      else cancel_loop pred rest (acc ++ [t]) stats n) := by
  conv_lhs => rw [cancel_loop]
  split
  next h2 => rw [h2] at hpop; cases hpop
  next t2 rest2 h2 =>
    rw [h2] at hpop
    simp only [Option.some.injEq, Prod.mk.injEq] at hpop
    obtain ⟨ht, hr⟩ := hpop
    subst ht
    subst hr
    rfl

theorem cancel_loop_count (pred : String → Option Nat → Bool) :
    ∀ (N : Nat) (heap acc : List scheduled_task) (stats : List (String × task_stat)) (n : Nat),
    heap.length ≤ N →
    (cancel_loop pred heap acc stats n).2.2 =
      n + (heap.filter (fun t => pred t.task_group t.param)).length ∧
    (cancel_loop pred heap acc stats n).1.Perm
      (acc ++ heap.filter (fun t => !(pred t.task_group t.param))) := by
  intro N
  induction N with
  | zero =>
    intro heap acc stats n hN
    have hnil : heap = [] := List.length_eq_zero.mp (Nat.le_zero.mp hN)
    subst hnil
    rw [cancel_loop_nil]
    simp
  | succ N ih =>
    intro heap acc stats n hN
    cases hpop : popMax heap with
    | none =>
      have hnil : heap = [] := (popMax_none_iff heap).mp hpop
      subst hnil
      rw [cancel_loop_nil]
      simp
    | some p =>
      obtain ⟨t, rest⟩ := p
      have hperm := popMax_perm _ _ _ hpop
      have hlen : rest.length ≤ N := by
        have := popMax_length _ _ _ hpop
        omega
      rw [cancel_loop_step pred heap acc stats n t rest hpop]
      have hfp : (heap.filter (fun u => pred u.task_group u.param)).length =
          ((t :: rest).filter (fun u => pred u.task_group u.param)).length :=
        (hperm.filter _).length_eq
      have hfn : (heap.filter (fun u => !(pred u.task_group u.param))).Perm
          ((t :: rest).filter (fun u => !(pred u.task_group u.param))) :=
        hperm.filter _
      by_cases hc : pred t.task_group t.param = true
      · rw [if_pos hc]
        obtain ⟨ihn, ihq⟩ := ih rest acc (stat_cancel stats t.task_group) (n + 1) hlen
        constructor
        · rw [ihn, hfp, List.filter_cons, if_pos hc]
          simp only [List.length_cons]
          omega
        · refine ihq.trans (List.Perm.append_left acc ?_)
          refine List.Perm.trans ?_ hfn.symm
          rw [List.filter_cons]
          simp [hc]
      · rw [if_neg hc]
        obtain ⟨ihn, ihq⟩ := ih rest (acc ++ [t]) stats n hlen
        constructor
        · rw [ihn, hfp, List.filter_cons]
          simp [hc]
        · refine ihq.trans ?_
          have hstep : (acc ++ [t]) ++ rest.filter (fun u => !(pred u.task_group u.param)) =
              acc ++ (t :: rest.filter (fun u => !(pred u.task_group u.param))) := by
            simp
          rw [hstep]
          refine List.Perm.append_left acc ?_
          refine List.Perm.trans ?_ hfn.symm
          rw [List.filter_cons]
          simp [hc]

theorem cancel_loop_queued_update (pred : String → Option Nat → Bool)
    (stats : List (String × task_stat)) (t : scheduled_task)
    (heap acc rest : List scheduled_task)
    (hperm : heap.Perm (t :: rest))
    (hq : ∀ g, queued_ofS stats g = count_group g heap + count_group g acc) :
    ∀ g, queued_ofS (stat_cancel stats t.task_group) g =
      count_group g rest + count_group g acc := by
  have hcnt : ∀ g, count_group g heap =
      (if t.task_group = g then 1 else 0) + count_group g rest := by
    intro g
    rw [count_group_perm g _ _ hperm, count_group_cons]
  intro g
  by_cases hg : g = t.task_group
  · subst hg
    rw [queued_stat_cancel_self, hq t.task_group, hcnt t.task_group, if_pos rfl]
    omega
  · rw [queued_stat_cancel_other stats t.task_group g hg, hq g, hcnt g]
    simp [Ne.symm hg]

theorem cancel_loop_queued (pred : String → Option Nat → Bool) :
    ∀ (N : Nat) (heap acc : List scheduled_task) (stats : List (String × task_stat)) (n : Nat),
    heap.length ≤ N →
    (∀ g, queued_ofS stats g = count_group g heap + count_group g acc) →
    ∀ g, queued_ofS (cancel_loop pred heap acc stats n).2.1 g =
       count_group g (cancel_loop pred heap acc stats n).1 := by
  intro N
  induction N with
  | zero =>
    intro heap acc stats n hN hq
    have hnil : heap = [] := List.length_eq_zero.mp (Nat.le_zero.mp hN)
    subst hnil
    rw [cancel_loop_nil]
    intro g
    have := hq g
    simpa [count_group] using this
  | succ N ih =>
    intro heap acc stats n hN hq
    cases hpop : popMax heap with
    | none =>
      have hnil : heap = [] := (popMax_none_iff heap).mp hpop
      subst hnil
      rw [cancel_loop_nil]
      intro g
      have := hq g
      simpa [count_group] using this
    | some p =>
      obtain ⟨t, rest⟩ := p
      have hperm := popMax_perm _ _ _ hpop
      have hlen : rest.length ≤ N := by
        have := popMax_length _ _ _ hpop
        omega
      have hcnt : ∀ g, count_group g heap =
          (if t.task_group = g then 1 else 0) + count_group g rest := by
        intro g
        rw [count_group_perm g _ _ hperm, count_group_cons]
      rw [cancel_loop_step pred heap acc stats n t rest hpop]
      by_cases hc : pred t.task_group t.param = true
      · rw [if_pos hc]
        exact ih rest acc (stat_cancel stats t.task_group) (n + 1) hlen
          (cancel_loop_queued_update pred stats t heap acc rest hperm hq)
      · rw [if_neg hc]
        refine ih rest (acc ++ [t]) stats n hlen ?_
        intro g
        rw [hq g, hcnt g, count_group_append, count_group_singleton]
        omega

theorem cancel_loop_balance (pred : String → Option Nat → Bool) :
    ∀ (N : Nat) (heap acc : List scheduled_task) (stats : List (String × task_stat)) (n : Nat),
    heap.length ≤ N →
    stats_balance stats →
    (∀ g, queued_ofS stats g = count_group g heap + count_group g acc) →
    stats_balance (cancel_loop pred heap acc stats n).2.1 := by
  intro N
  induction N with
  | zero =>
    intro heap acc stats n hN hb hq
    have hnil : heap = [] := List.length_eq_zero.mp (Nat.le_zero.mp hN)
    subst hnil
    rw [cancel_loop_nil]
    exact hb
  | succ N ih =>
    intro heap acc stats n hN hb hq
    cases hpop : popMax heap with
    | none =>
      have hnil : heap = [] := (popMax_none_iff heap).mp hpop
      subst hnil
      rw [cancel_loop_nil]
      exact hb
    | some p =>
      obtain ⟨t, rest⟩ := p
      have hperm := popMax_perm _ _ _ hpop
      have hlen : rest.length ≤ N := by
        have := popMax_length _ _ _ hpop
        omega
      have hcnt : ∀ g, count_group g heap =
          (if t.task_group = g then 1 else 0) + count_group g rest := by
        intro g
        rw [count_group_perm g _ _ hperm, count_group_cons]
      rw [cancel_loop_step pred heap acc stats n t rest hpop]
      by_cases hc : pred t.task_group t.param = true
      · rw [if_pos hc]
        have hq1 : 1 ≤ queued_ofS stats t.task_group := by
          rw [hq t.task_group, hcnt t.task_group, if_pos rfl]
          omega
        exact ih rest acc (stat_cancel stats t.task_group) (n + 1) hlen
          (balance_stat_cancel stats t.task_group hq1 hb)
          (cancel_loop_queued_update pred stats t heap acc rest hperm hq)
      · rw [if_neg hc]
        refine ih rest (acc ++ [t]) stats n hlen hb ?_
        intro g
        rw [hq g, hcnt g, count_group_append, count_group_singleton]
        omega

/-- The steps claim C2 quantifies over: any sequence of `submit` (`post`),
`cancel` and task-completion (`_worker_try_execute`) operations from a fresh
scheduler. -/
inductive Reach : sched_state → Prop where
  | init (w : Nat) : Reach (init_state w)
  | submit {s : sched_state} (t : scheduled_task) : Reach s → Reach (post s t)
  | cancel_step {s : sched_state} (pred : String → Option Nat → Bool) :
      Reach s → Reach (cancel s pred).2
  | complete {s : sched_state} : Reach s → Reach (worker_try_execute s)

theorem reach_inv (s : sched_state) (h : Reach s) :
    AuxInv s ∧ stats_balance s.task_stats := by
  induction h with
  | init w =>
    refine ⟨aux_init w, fun g => ?_⟩
    simp [init_state, submitted_ofS, queued_ofS, completed_ofS, cancelled_ofS, lookupS]
  | submit t _ ih => exact ⟨aux_post _ t ih.1, balance_post _ t ih.2⟩
  | cancel_step pred _ ih =>
    rename_i s0 _
    have hq0 : ∀ g, queued_ofS s0.task_stats g = count_group g s0.tasks + count_group g [] := by
      intro g
      have := ih.1 g
      simpa [count_group] using this
    have hq := cancel_loop_queued pred s0.tasks.length s0.tasks [] s0.task_stats 0
      (le_refl _) hq0
    have hb := cancel_loop_balance pred s0.tasks.length s0.tasks [] s0.task_stats 0
      (le_refl _) ih.2 hq0
    exact ⟨fun g => hq g, hb⟩
  | complete _ ih =>
    rename_i s0 _
    exact ⟨aux_worker_try_execute s0 ih.1, balance_wte s0 ih.1 ih.2⟩

/-- Claim C2: in every scheduler state reachable by any sequence of submit,
cancel and task-completion steps, and for every group G,
`submitted(G) = queued(G) + completed(G) + cancelled(G)`, where `cancelled`
is the ghost counter incremented exactly when `cancel` drops a task of G. -/
theorem counters_balance (s : sched_state) (h : Reach s) :
    ∀ g, submitted_of s g = queued_of s g + completed_of s g + cancelled_of s g :=
  (reach_inv s h).2

theorem counters_balance_witness :
    Reach (worker_try_execute (post (init_state 2) ⟨3, "A", 0, false, "", "", none⟩)) ∧
    ∀ g, submitted_of (worker_try_execute (post (init_state 2) ⟨3, "A", 0, false, "", "", none⟩)) g =
      queued_of (worker_try_execute (post (init_state 2) ⟨3, "A", 0, false, "", "", none⟩)) g +
      completed_of (worker_try_execute (post (init_state 2) ⟨3, "A", 0, false, "", "", none⟩)) g +
      cancelled_of (worker_try_execute (post (init_state 2) ⟨3, "A", 0, false, "", "", none⟩)) g :=
  ⟨Reach.complete (Reach.submit _ (Reach.init 2)),
   counters_balance _ (Reach.complete (Reach.submit _ (Reach.init 2)))⟩

/-! ## Claim C7 -/

/-- Claim C7: `cancel(pred)` removes from the queue exactly the tasks for
which `pred(group, param)` is true, decrements each removed task's group
`queued` counter (stated additively to avoid truncated subtraction), keeps
every non-matching task, and returns the number removed; and, with no
interleaved submissions, a second `cancel` with the same predicate returns
zero. -/
theorem cancel_removes_exactly_matching (s : sched_state)
    (pred : String → Option Nat → Bool) (hA : AuxInv s) :
    (cancel s pred).1 = (s.tasks.filter (fun t => pred t.task_group t.param)).length ∧
    (cancel s pred).2.tasks.Perm
      (s.tasks.filter (fun t => !(pred t.task_group t.param))) ∧
    (∀ g, queued_of (cancel s pred).2 g +
        ((s.tasks.filter (fun t => pred t.task_group t.param)).filter
          (fun t => decide (t.task_group = g))).length = queued_of s g) ∧
    (cancel (cancel s pred).2 pred).1 = 0 := by
  obtain ⟨hn, hsurv⟩ := cancel_loop_count pred s.tasks.length s.tasks [] s.task_stats 0
    (le_refl _)
  have hq0 : ∀ g, queued_ofS s.task_stats g =
      count_group g s.tasks + count_group g [] := by
    intro g
    have := hA g
    simpa [count_group] using this
  have hq := cancel_loop_queued pred s.tasks.length s.tasks [] s.task_stats 0
    (le_refl _) hq0
  have e1 : (cancel s pred).1 = (cancel_loop pred s.tasks [] s.task_stats 0).2.2 := rfl
  have e2 : (cancel s pred).2.tasks = (cancel_loop pred s.tasks [] s.task_stats 0).1 := rfl
  have e3 : (cancel s pred).2.task_stats = (cancel_loop pred s.tasks [] s.task_stats 0).2.1 := rfl
  have hsurv2 : (cancel s pred).2.tasks.Perm
      (s.tasks.filter (fun t => !(pred t.task_group t.param))) := by
    rw [e2]
    simpa using hsurv
  refine ⟨by rw [e1, hn]; simp, hsurv2, ?_, ?_⟩
  · intro g
    have hque : queued_of (cancel s pred).2 g =
        count_group g (cancel s pred).2.tasks := by
      show queued_ofS (cancel s pred).2.task_stats g = _
      rw [e3, e2]
      exact hq g
    rw [hque, count_group_perm g _ _ hsurv2, hA g]
    have hsplit : List.countP (fun t => decide (t.task_group = g)) s.tasks =
        (s.tasks.filter (fun t => pred t.task_group t.param)).countP
          (fun t => decide (t.task_group = g)) +
        (s.tasks.filter (fun t => !(pred t.task_group t.param))).countP
          (fun t => decide (t.task_group = g)) :=
      List.countP_eq_countP_filter_add s.tasks _ _
    simp only [count_group, ← List.countP_eq_length_filter] at hsplit ⊢
    omega
  · obtain ⟨hn2, _⟩ := cancel_loop_count pred (cancel s pred).2.tasks.length
      (cancel s pred).2.tasks [] (cancel s pred).2.task_stats 0 (le_refl _)
    have e4 : (cancel (cancel s pred).2 pred).1 =
        (cancel_loop pred (cancel s pred).2.tasks [] (cancel s pred).2.task_stats 0).2.2 := rfl
    rw [e4, hn2]
    have hlen0 : ((cancel s pred).2.tasks.filter
        (fun t => pred t.task_group t.param)).length =
        ((s.tasks.filter (fun t => !(pred t.task_group t.param))).filter
          (fun t => pred t.task_group t.param)).length :=
      (hsurv2.filter _).length_eq
    rw [hlen0]
    have : (s.tasks.filter (fun t => !(pred t.task_group t.param))).filter
        (fun t => pred t.task_group t.param) = [] := by
      rw [List.filter_filter]
      apply List.filter_eq_nil_iff.mpr
      intro t _
      cases hp : pred t.task_group t.param <;> simp [hp]
    rw [this]
    simp

/-- Witness scheduler state for the cancel contract: two queued tasks, one
carrying a param. -/
def c7_state : sched_state :=
  submit_all (init_state 4)
    [⟨5, "A", 0, false, "", "", some 1⟩, ⟨2, "B", 1, false, "", "", none⟩]

/-- Witness cancellation predicate: drop tasks that carry a param. -/
def c7_pred : String → Option Nat → Bool := fun _ p => p.isSome

theorem cancel_removes_exactly_matching_witness :
    AuxInv c7_state ∧
    ((cancel c7_state c7_pred).1 =
       (c7_state.tasks.filter (fun t => c7_pred t.task_group t.param)).length ∧
     (cancel c7_state c7_pred).2.tasks.Perm
       (c7_state.tasks.filter (fun t => !(c7_pred t.task_group t.param))) ∧
     (∀ g, queued_of (cancel c7_state c7_pred).2 g +
         ((c7_state.tasks.filter (fun t => c7_pred t.task_group t.param)).filter
           (fun t => decide (t.task_group = g))).length = queued_of c7_state g) ∧
     (cancel (cancel c7_state c7_pred).2 c7_pred).1 = 0) :=
  ⟨aux_submit_all (init_state 4) _ (aux_init 4),
   cancel_removes_exactly_matching c7_state c7_pred
     (aux_submit_all (init_state 4) _ (aux_init 4))⟩

/-! ## Claim C5 -/

theorem filter_id_singleton (subs : List scheduled_task) (t : scheduled_task)
    (p : scheduled_task → Bool)
    (hids : (subs.map (fun u => u.task_id)).Nodup) (ht : t ∈ subs)
    (hp : p t = true) (hid : ∀ u, p u = true → u.task_id = t.task_id) :
    subs.filter p = [t] := by
  induction subs with
  | nil => cases ht
  | cons u rest ih =>
    have hids2 : (u.task_id :: rest.map (fun v => v.task_id)).Nodup := by
      simpa using hids
    have hnd := List.nodup_cons.mp hids2
    rcases List.mem_cons.mp ht with hut | htr
    · subst hut
      rw [List.filter_cons, if_pos (by simp [hp])]
      have hrest : rest.filter p = [] := by
        apply List.filter_eq_nil_iff.mpr
        intro v hv hpv
        exact hnd.1 (List.mem_map.mpr ⟨v, hv, hid v hpv⟩)
      rw [hrest]
    · have hpu : p u = false := by
        cases hpu : p u
        · rfl
        · exact absurd (List.mem_map.mpr ⟨t, htr, (hid u hpu).symm⟩) hnd.1
      rw [List.filter_cons, if_neg (by simp [hpu])]
      exact ih (by simpa using hnd.2) htr

/-- Claim C5: if a submitted action throws during a drain, the exception does
not escape the worker: the accumulated `success` flag read at drain exit is
false, so `process_ok()` returns false and `process()` throws `tasks_failed`
at exit; and when an error observer is registered for the failing task's
group, it is invoked exactly once for that task, with a
`scheduled_task_error` message containing the thrown exception's message. -/
theorem task_failure_reported_once
    (w fuel oid : Nat) (g : String) (subs : List scheduled_task)
    (t : scheduled_task) (s0 : sched_state)
    (r : Except sched_error (Bool × sched_state))
    (hobs : on_error (init_state w) g oid false = .ok s0)
    (hids : (subs.map (fun u => u.task_id)).Nodup)
    (ht : t ∈ subs) (hfail : t.fails = true) (hg : t.task_group = g)
    (hrun : process_ok fuel (submit_all s0 subs) = some r) :
    ∃ s1, r = .ok (false, s1) ∧
      process fuel (submit_all s0 subs) = some (.error .tasks_failed) ∧
      obs_for t.task_id s1.obs_calls = [mk_event t] ∧
      ∃ pre post, (mk_event t).message = pre ++ t.err_msg ++ post := by
  have hs0 : s0 = { init_state w with observers := [(g, oid)] } := by
    have : on_error (init_state w) g oid false =
        .ok { init_state w with observers := [(g, oid)] } := by
      simp [on_error, task_count, queued_of, queued_ofS, lookupS, init_state]
    rw [this] at hobs
    injection hobs with h2
    exact h2.symm
  subst hs0
  have hfields := submit_all_fields subs { init_state w with observers := [(g, oid)] }
  have hpr : (submit_all { init_state w with observers := [(g, oid)] } subs).process_running
      = false := by
    rw [hfields.2.2.2.2.2.1]
    rfl
  set S := submit_all { init_state w with observers := [(g, oid)] } subs with hS
  have hA0 : AuxInv { init_state w with observers := [(g, oid)] } := by
    intro g3
    rfl
  have hA : AuxInv { S with process_running := true } := by
    intro g2
    exact aux_submit_all { init_state w with observers := [(g, oid)] } subs hA0 g2
  cases hr0 : r with
  | error e =>
    exfalso
    rw [hr0] at hrun
    unfold process_ok at hrun
    rw [if_neg (by rw [hpr]; exact Bool.false_ne_true)] at hrun
    cases hd : drain fuel { S with process_running := true } with
    | none => rw [hd] at hrun; cases hrun
    | some sd => rw [hd] at hrun; cases hrun
  | ok p =>
    obtain ⟨b, s1⟩ := p
    rw [hr0] at hrun
    obtain ⟨sd, hd, hb, hs1⟩ := process_ok_inv fuel S s1 b hpr hrun
    obtain ⟨_, _, _, _, _, _, hsucc, hobsc⟩ := drain_spec fuel _ sd hA hd
    have htasks : ({ S with process_running := true } : sched_state).tasks = subs := by
      show S.tasks = subs
      rw [hS, hfields.1]
      rfl
    have hobsv : ({ S with process_running := true } : sched_state).observers =
        [(g, oid)] := by
      show S.observers = _
      rw [hS, hfields.2.1]
    have hsuccS : ({ S with process_running := true } : sched_state).success = true := by
      show S.success = true
      rw [hS, hfields.2.2.2.2.1]
      rfl
    have hallf : subs.all (fun u => !u.fails) = false := by
      cases hallb : subs.all (fun u => !u.fails)
      · rfl
      · exfalso
        have := List.all_eq_true.mp hallb t ht
        rw [hfail] at this
        simp at this
    have hsdf : sd.success = false := by
      rw [hsucc, hsuccS, htasks, hallf]
      rfl
    have hbF : b = false := by rw [hb, hsdf]
    refine ⟨s1, by rw [hbF], ?_, ?_, ?_⟩
    · unfold process
      rw [hrun, hbF]
      rfl
    · have hobst := hobsc t.task_id
      rw [htasks, hobsv] at hobst
      have hS_obs : ({ S with process_running := true } : sched_state).obs_calls = [] := by
        show S.obs_calls = []
        rw [hS, hfields.2.2.2.1]
        rfl
      rw [hS_obs] at hobst
      have hfilt : subs.filter (err_cond [(g, oid)] t.task_id) = [t] := by
        refine filter_id_singleton subs t _ hids ht ?_ ?_
        · simp [err_cond, hfail, hg, lookupS]
        · intro u hu
          simp only [err_cond, Bool.and_eq_true, decide_eq_true_eq] at hu
          exact hu.1
      rw [hfilt] at hobst
      have hs1obs : s1.obs_calls = sd.obs_calls := by
        rw [hs1]
        rfl
      rw [hs1obs]
      exact List.perm_singleton.mp (by simpa [obs_for] using hobst)
    · refine ⟨"task: " ++ sq ++ t.task_group ++ sq ++ " error: " ++ sq,
        sq ++ " of type: " ++ sq ++ t.ex_type ++ sq ++ "!", ?_⟩
      show err_message t = _
      simp [err_message, String.append_assoc]

/-- Witness failing task: group "bad", throwing "boom". -/
def c5_task : scheduled_task := ⟨100, "bad", 0, true, "boom", "rt", none⟩

/-- Witness start state: observer registered for "bad" on a fresh pool. -/
def c5_s0 : sched_state := { init_state 4 with observers := [("bad", 0)] }

/-- Witness end state: the failing task executed, the observer called once,
`process_ok` finalized. -/
def c5_out : sched_state :=
  { tasks := [], task_stats := [("bad", ⟨1, 0, 1, 0⟩)], observers := [],
    success := true, process_running := false, wait_all_done_running := false,
    num_workers := 4, exec_trace := [c5_task], obs_calls := [mk_event c5_task] }

theorem task_failure_reported_once_witness :
    (on_error (init_state 4) "bad" 0 false = .ok c5_s0 ∧
     ([c5_task].map (fun u => u.task_id)).Nodup ∧
     c5_task ∈ [c5_task] ∧ c5_task.fails = true ∧ c5_task.task_group = "bad" ∧
     process_ok 2 (submit_all c5_s0 [c5_task]) = some (.ok (false, c5_out))) ∧
    (∃ s1, (Except.ok (false, c5_out) : Except sched_error (Bool × sched_state)) =
        .ok (false, s1) ∧
      process 2 (submit_all c5_s0 [c5_task]) = some (.error .tasks_failed) ∧
      obs_for c5_task.task_id s1.obs_calls = [mk_event c5_task] ∧
      ∃ pre post, (mk_event c5_task).message = pre ++ c5_task.err_msg ++ post) :=
  ⟨⟨by rfl, by decide, by decide, rfl, rfl, by rfl⟩,
   task_failure_reported_once 4 2 0 "bad" [c5_task] c5_task c5_s0
     (.ok (false, c5_out)) (by rfl) (by decide) (by decide) rfl rfl (by rfl)⟩

/-! ## Claims C6 and C9 -/

/-- Claim C6: `wait_all(group, submit_func)` fails when another `wait_all` is
already in flight; otherwise fails when the pool has fewer than 4 workers;
and otherwise (here: when installing the temporary observer succeeds because
the group has no queued work), once its drain loop finishes it fails if and
only if the per-call error counter is positive, returning normally when the
counter is zero. -/
theorem wait_all_contract (fuel : Nat) (s : sched_state) (g : String)
    (subs : List scheduled_task) :
    (s.wait_all_done_running = true →
      wait_all fuel s g subs = some (s, some .concurrent_wait_all, 0)) ∧
    (s.wait_all_done_running = false → s.num_workers < 4 →
      wait_all fuel s g subs =
        some ({ s with wait_all_done_running := true },
          some (.too_few_workers s.num_workers), 0)) ∧
    (∀ s5 err errors, s.wait_all_done_running = false → 4 ≤ s.num_workers →
      task_count s g = 0 →
      wait_all fuel s g subs = some (s5, err, errors) →
      (errors = 0 → err = none) ∧ (0 < errors → err = some (.wait_all_failed g))) := by
  refine ⟨?_, ?_, ?_⟩
  · intro hflag
    unfold wait_all
    rw [if_pos hflag]
  · intro hflag hw
    unfold wait_all
    rw [if_neg (by rw [hflag]; exact Bool.false_ne_true)]
    have hw2 : ({ s with wait_all_done_running := true } : sched_state).num_workers < 4 := hw
    rw [if_pos hw2]
  · intro s5 err errors hflag hw htc heq
    unfold wait_all at heq
    split at heq
    · next h1 =>
        rw [hflag] at h1
        cases h1
    · split at heq
      · next h2 => exact absurd h2 (by omega)
      · split at heq
        · next e h3 =>
            exfalso
            unfold on_error at h3
            rw [if_neg (by
              have : task_count { s with wait_all_done_running := true } g = 0 := htc
              simp [this])] at h3
            cases hlk : lookupS s.observers g <;>
              rw [show lookupS ({ s with wait_all_done_running := true } :
                sched_state).observers g = lookupS s.observers g from rfl, hlk] at h3 <;>
              simp at h3
        · next s2 h3 =>
            split at heq
            · cases heq
            · next s4 e h4 =>
                split at heq
                · next h5 =>
                    simp only [Option.some.injEq, Prod.mk.injEq] at heq
                    obtain ⟨_, herr, herrs⟩ := heq
                    subst herr
                    subst herrs
                    exact ⟨fun h0 => absurd h0 (by omega), fun _ => rfl⟩
                · next h5 =>
                    simp only [Option.some.injEq, Prod.mk.injEq] at heq
                    obtain ⟨_, herr, herrs⟩ := heq
                    subst herr
                    subst herrs
                    exact ⟨fun _ => rfl, fun h0 => absurd h0 (by omega)⟩

/-- Claim C9: calling `wait_all` on a pool with fewer than 4 workers throws
only after the single-flight flag has been set, and that failure path never
clears the flag; consequently every later `wait_all` call on the same
scheduler fails with the concurrent-call error even though no `wait_all` is
running. -/
theorem wait_all_small_pool_poisons_flag (fuel fuel2 : Nat) (s : sched_state)
    (g g2 : String) (subs subs2 : List scheduled_task)
    (hflag : s.wait_all_done_running = false) (hw : s.num_workers < 4) :
    wait_all fuel s g subs =
      some ({ s with wait_all_done_running := true },
        some (.too_few_workers s.num_workers), 0) ∧
    ({ s with wait_all_done_running := true } : sched_state).wait_all_done_running = true ∧
    wait_all fuel2 { s with wait_all_done_running := true } g2 subs2 =
      some ({ s with wait_all_done_running := true }, some .concurrent_wait_all, 0) := by
  refine ⟨(wait_all_contract fuel s g subs).2.1 hflag hw, rfl, ?_⟩
  unfold wait_all
  rw [if_pos rfl]

/-- Witness end state of a successful `wait_all`: one child of group "W"
drained, the temporary observer still installed, the flag cleared. -/
def c6_out : sched_state :=
  { tasks := [], task_stats := [("W", ⟨1, 0, 1, 0⟩)],
    observers := [("W", 1000000)], success := true, process_running := false,
    wait_all_done_running := false, num_workers := 4,
    exec_trace := [⟨1, "W", 0, false, "", "", none⟩], obs_calls := [] }

theorem wait_all_contract_witness :
    ((init_state 4).wait_all_done_running = false ∧ 4 ≤ (init_state 4).num_workers ∧
     task_count (init_state 4) "W" = 0 ∧
     wait_all 4 (init_state 4) "W" [⟨1, "W", 0, false, "", "", none⟩] =
       some (c6_out, none, 0)) ∧
    (((0 : Nat) = 0 → (none : Option sched_error) = none) ∧
     (0 < (0 : Nat) → (none : Option sched_error) = some (.wait_all_failed "W"))) :=
  ⟨⟨rfl, by decide, by rfl, by rfl⟩,
   (wait_all_contract 4 (init_state 4) "W" [⟨1, "W", 0, false, "", "", none⟩]).2.2
     c6_out none 0 rfl (by decide) (by rfl) (by rfl)⟩

theorem wait_all_small_pool_poisons_flag_witness :
    ((init_state 2).wait_all_done_running = false ∧ (init_state 2).num_workers < 4) ∧
    (wait_all 1 (init_state 2) "a" [] =
       some ({ init_state 2 with wait_all_done_running := true },
         some (.too_few_workers (init_state 2).num_workers), 0) ∧
     ({ init_state 2 with wait_all_done_running := true } : sched_state).wait_all_done_running
       = true ∧
     wait_all 1 { init_state 2 with wait_all_done_running := true } "b" [] =
       some ({ init_state 2 with wait_all_done_running := true },
         some .concurrent_wait_all, 0)) :=
  ⟨⟨rfl, by decide⟩,
   wait_all_small_pool_poisons_flag 1 1 (init_state 2) "a" "b" [] [] rfl (by decide)⟩

end TurboSched
